import Mathlib

/-!
Verification of the syntax-highlighting subsystem of a terminal line-editing
library (`src/highlight.rs`).

The edited line is modelled as a list of bytes (`List Nat`, each entry a byte
value); the cursor is a byte offset (`Nat`).  The bracket cache of the
matching-bracket highlighter is an `Option (Nat × Nat)` holding the cached
bracket byte and its byte position.  The `i32` unmatched-depth counter of the
bracket search is modelled as `Int` (its values stay far from the `i32`
overflow bounds on any line shorter than `2^31` bytes, so `Int` and `i32`
agree on all reachable states).

Rust slice indexing / slicing panics out of bounds; the Lean embeddings of
`check_bracket` and `find_matching_bracket` use total `getD`/`take`/`drop`,
and separate `...Chk` variants return `none` exactly when the source would
index or slice out of bounds, so that in-bounds execution is a provable
statement rather than an assumption.
-/

/-- Byte value of the ESC character starting an ANSI escape sequence. -/
def escByte : Nat := 27

/-- `matching_bracket` from `highlight.rs`: the counterpart byte of an ASCII
bracket byte (`{`↔`}`, `[`↔`]`, `(`↔`)`), identity on any other byte. -/
def matching_bracket : Nat → Nat
  | 123 => 125
  | 125 => 123
  | 91 => 93
  | 93 => 91
  | 40 => 41
  | 41 => 40
  | b => b

/-- `is_open_bracket` from `highlight.rs`: `{` (123), `[` (91) or `(` (40). -/
def is_open_bracket (b : Nat) : Bool :=
  b == 123 || b == 91 || b == 40

/-- `is_close_bracket` from `highlight.rs`: `}` (125), `]` (93) or `)` (41). -/
def is_close_bracket (b : Nat) : Bool :=
  b == 125 || b == 93 || b == 41

/-- Forward scan loop of `find_matching_bracket` (the `is_open_bracket`
branch).  Iterates over the byte slice `line[idx..]`, carrying the running
index `idx` and the `i32` counter `unmatched`: on the counterpart byte the
counter is decremented and, when it reaches 0, `(matching, idx)` is returned;
on another `bracket` byte it is incremented; the loop falls off the end with
`none`. -/
def fmbFwd (bracket matching : Nat) : List Nat → Nat → Int → Option (Nat × Nat)
  | [], _, _ => none
  | b :: bs, idx, unmatched =>
    if b = matching then
      if unmatched - 1 = 0 then some (matching, idx)
      else fmbFwd bracket matching bs (idx + 1) (unmatched - 1)
    else if b = bracket then
      fmbFwd bracket matching bs (idx + 1) (unmatched + 1)
    else
      fmbFwd bracket matching bs (idx + 1) unmatched

/-- Backward scan loop of `find_matching_bracket` (the closing-bracket
branch).  Iterates over the reversed byte slice `line[..pos]`, carrying the
running index `idx` (which starts at `pos` and is decremented after each
byte, so the byte examined while the index is `idx` is `line[idx - 1]`). -/
def fmbBwd (bracket matching : Nat) : List Nat → Nat → Int → Option (Nat × Nat)
  | [], _, _ => none
  | b :: bs, idx, unmatched =>
    if b = matching then
      if unmatched - 1 = 0 then some (matching, idx - 1)
      else fmbBwd bracket matching bs (idx - 1) (unmatched - 1)
    else if b = bracket then
      fmbBwd bracket matching bs (idx - 1) (unmatched + 1)
    else
      fmbBwd bracket matching bs (idx - 1) unmatched

/-- `find_matching_bracket(line, pos, bracket)` from `highlight.rs`: nested
bracket search from the anchor.  Opening bracket: forward scan over
`line[pos+1..]` starting with counter 1; otherwise: backward scan over
`line[..pos]` reversed. -/
def find_matching_bracket (line : List Nat) (pos : Nat) (bracket : Nat) :
    Option (Nat × Nat) :=
  let matching := matching_bracket bracket
  if is_open_bracket bracket then
    fmbFwd bracket matching (line.drop (pos + 1)) (pos + 1) 1
  else
    fmbBwd bracket matching ((line.take pos).reverse) pos 1

/-- Second (and last) iteration of the `loop` in `check_bracket`, reached
with `under_cursor = false`: the three checks at the current position, with
`none` when the byte is not a bracket (the loop cannot step back again). -/
def cbLast (line : List Nat) (pos : Nat) : Option (Nat × Nat) :=
  let b := line.getD pos 0
  if is_close_bracket b then
    if pos = 0 then none else some (b, pos)
  else if is_open_bracket b then
    if pos + 1 = line.length then none else some (b, pos)
  else none

/-- The `loop` in `check_bracket`, entered with `under_cursor = true`:
the three checks at `pos`; on a non-bracket byte with `pos > 0` the loop
runs exactly once more at `pos - 1` (modelled by `cbLast`). -/
def cbLoop (line : List Nat) (pos : Nat) : Option (Nat × Nat) :=
  let b := line.getD pos 0
  if is_close_bracket b then
    if pos = 0 then none else some (b, pos)
  else if is_open_bracket b then
    if pos + 1 = line.length then none else some (b, pos)
  else if 0 < pos then cbLast line (pos - 1)
  else none

/-- `check_bracket(line, pos)` from `highlight.rs`: locate a bracket under
or just before the cursor.  Empty line: none.  Cursor at or past the end:
inspect only the last byte, which is reported only when it is a closing
bracket.  Otherwise run the two-iteration loop at `pos`. -/
def check_bracket (line : List Nat) (pos : Nat) : Option (Nat × Nat) :=
  if line = [] then none
  else if line.length ≤ pos then
    let p := line.length - 1
    let b := line.getD p 0
    if is_close_bracket b then some (b, p) else none
  else cbLoop line pos

/-- The byte sequence of the literal `"\x1b[1;34m"` (bold + ANSI blue
foreground) written by `MatchingBracketHighlighter::highlight`. -/
def styleStart : List Nat := [27, 91, 49, 59, 51, 52, 109]

/-- The byte sequence of the literal `"\x1b[0m"` (reset) written by
`MatchingBracketHighlighter::highlight`. -/
def styleEnd : List Nat := [27, 91, 48, 109]

namespace MatchingBracketHighlighter

/-- `MatchingBracketHighlighter::highlight` from `highlight.rs`, with the
`bracket` cache cell passed explicitly.  A line of byte length ≤ 1 is
returned unchanged; otherwise, when the cache holds `(b, p)` and
`find_matching_bracket` locates the counterpart at `idx`, the result is the
line with the single byte at `idx` replaced by
`styleStart ++ [matching] ++ styleEnd` (the `replace_range idx..=idx`
call); in every other case the line is returned unchanged.  `pos` is
unused, as in the source (`_pos`). -/
def highlight (bracket : Option (Nat × Nat)) (line : List Nat) (pos : Nat) :
    List Nat :=
  let _ := pos
  if line.length ≤ 1 then line
  else
    match bracket with
    | some (b, p) =>
      match find_matching_bracket line p b with
      | some (matching, idx) =>
        line.take idx ++ styleStart ++ [matching] ++ styleEnd ++ line.drop (idx + 1)
      | none => line
    | none => line

/-- `MatchingBracketHighlighter::highlight_char` from `highlight.rs`, with
the cache cell passed in and the updated cache returned alongside the
boolean: `forced` clears the cache and yields `false`; otherwise the cache
is set to `check_bracket line pos` and the boolean tells whether it is
non-empty. -/
def highlight_char (bracket : Option (Nat × Nat)) (line : List Nat)
    (pos : Nat) (forced : Bool) : Option (Nat × Nat) × Bool :=
  let _ := bracket
  if forced then (none, false)
  else
    let r := check_bracket line pos
    (r, r.isSome)

end MatchingBracketHighlighter

/-- Bounds-checked variant of `cbLast`: the loop body reads the single
byte `line[pos]`, so the variant is `none` exactly when that access of the
source would be out of bounds, and `some` of the `cbLast` result
otherwise. -/
def cbLastChk (line : List Nat) (pos : Nat) : Option (Option (Nat × Nat)) :=
  if pos < line.length then some (cbLast line pos) else none

/-- Bounds-checked variant of `cbLoop`: the first iteration reads
`line[pos]`; a second iteration (reached only on a non-bracket byte with
`pos > 0`) reads `line[pos - 1]`, which is in bounds whenever `pos` is. -/
def cbLoopChk (line : List Nat) (pos : Nat) : Option (Option (Nat × Nat)) :=
  if pos < line.length then
    let b := line.getD pos 0
    if is_close_bracket b then some (cbLoop line pos)
    else if is_open_bracket b then some (cbLoop line pos)
    else if 0 < pos then cbLastChk line (pos - 1)
    else some (cbLoop line pos)
  else none

/-- Bounds-checked variant of `check_bracket`: `none` exactly when one of
the byte accesses of the source (`line[line.len() - 1]` in the
past-the-end branch, `line[pos]` and possibly `line[pos - 1]` in the loop)
would panic, and `some` of the `check_bracket` result otherwise. -/
def check_bracketChk (line : List Nat) (pos : Nat) :
    Option (Option (Nat × Nat)) :=
  if line = [] then some none
  else if line.length ≤ pos then
    if line.length - 1 < line.length then some (check_bracket line pos) else none
  else cbLoopChk line pos

/-- Bounds-checked variant of `find_matching_bracket`: the source slices
`line[pos+1..]` in the forward branch and `line[..pos]` in the backward
branch, which panic when the bound exceeds the line length; this variant
returns `none` in exactly those cases and `some` of the
`find_matching_bracket` result otherwise. -/
def find_matching_bracketChk (line : List Nat) (pos : Nat) (bracket : Nat) :
    Option (Option (Nat × Nat)) :=
  let matching := matching_bracket bracket
  if is_open_bracket bracket then
    if pos + 1 ≤ line.length then
      some (fmbFwd bracket matching (line.drop (pos + 1)) (pos + 1) 1)
    else none
  else
    if pos ≤ line.length then
      some (fmbBwd bracket matching ((line.take pos).reverse) pos 1)
    else none

/-- Specification-side predicate for the bracket scan: position `j` of the
scanned slice `s` closes the search started with unmatched depth `u` when it
holds the counterpart byte `m` and the counterpart count up to and including
`j` exceeds the `b` count before `j` by exactly `u`. -/
def closesAt (b m : Nat) (s : List Nat) (u : Int) (j : Nat) : Bool :=
  decide (s.getD j 0 = m ∧
    ((s.take (j + 1)).count m : Int) = ((s.take j).count b : Int) + u)

/-- Specification-side description of the scan result: the first position of
the slice at which the unmatched-depth counter started at `u` reaches 0. -/
def scanIdx (b m : Nat) (s : List Nat) (u : Int) : Option Nat :=
  (List.range s.length).find? (closesAt b m s u)

/-- Modelled from the spec: `CompletionType` lives in `src/config.rs`, which
is not part of the sources; the spec only requires that the completion-kind
discriminator "distinguishes at least 'list display' from 'inline insertion'
styling contexts", so it is modelled as a two-constructor discriminator. -/
inductive CompletionType where
  | circular
  | list
deriving DecidableEq

/-- The `Highlighter` trait from `highlight.rs`, modelled as a record of the
five operations over an explicit state `σ` (the `&mut self` receiver):
each operation consumes the state and returns the updated state together
with its result (rendered bytes, or the repaint boolean). -/
structure Highlighter (σ : Type) where
  highlight : σ → List Nat → Nat → σ × List Nat
  highlight_prompt : σ → List Nat → Bool → σ × List Nat
  highlight_hint : σ → List Nat → σ × List Nat
  highlight_candidate : σ → List Nat → CompletionType → σ × List Nat
  highlight_char : σ → List Nat → Nat → Bool → σ × Bool

/-- The default method bodies of the `Highlighter` trait: `highlight`,
`highlight_prompt`, `highlight_hint` and `highlight_candidate` return their
text argument unchanged and leave the state untouched; `highlight_char`
returns `false`. -/
def Highlighter.defaults (σ : Type) : Highlighter σ where
  highlight := fun s line _pos => (s, line)
  highlight_prompt := fun s prompt _dflt => (s, prompt)
  highlight_hint := fun s hint => (s, hint)
  highlight_candidate := fun s candidate _kind => (s, candidate)
  highlight_char := fun s _line _pos _forced => (s, false)

/-- `impl Highlighter for ()` from `highlight.rs`: the unit highlighter,
which overrides nothing and therefore uses every default. -/
def unitHighlighter : Highlighter Unit := Highlighter.defaults Unit

/-- `impl<'r, H: Highlighter> Highlighter for &'r mut H` from
`highlight.rs`: the delegation instance on an exclusive reference, whose
five method bodies each call `(**self).method(args)` on the referenced
highlighter, forwarding the arguments unchanged. -/
def refMut {σ : Type} (h : Highlighter σ) : Highlighter σ where
  highlight := fun s line pos => h.highlight s line pos
  highlight_prompt := fun s prompt dflt => h.highlight_prompt s prompt dflt
  highlight_hint := fun s hint => h.highlight_hint s hint
  highlight_candidate := fun s candidate kind => h.highlight_candidate s candidate kind
  highlight_char := fun s line pos forced => h.highlight_char s line pos forced

/-- A `Style` value, modelled by the rendered bytes of the two ANSI
sequences its `start()` and `end()` methods display. -/
structure StyleTokens where
  startTok : List Nat
  endTok : List Nat
deriving DecidableEq

/-- `impl Style for ()` from `highlight.rs`: both `start()` and `end()`
display the empty string. -/
def unitStyle : StyleTokens := ⟨[], []⟩

/-- The bytes written for one styled block by `StyledBlocks::fmt`:
`write!(f, "{}{}{}", style.start(), block.text(), style.end())`. -/
def renderBlock (b : StyleTokens × List Nat) : List Nat :=
  b.1.startTok ++ b.2 ++ b.1.endTok

namespace StyledBlocks

/-- `impl DisplayOnce for StyledBlocks`: the `fmt` method writes, for each
block of the iterator in sequence, start token, text and end token into the
sink (modelled as the accumulated byte list). -/
def fmt (blocks : List (StyleTokens × List Nat)) : List Nat :=
  blocks.foldl (fun acc b => acc ++ renderBlock b) []

end StyledBlocks

/-- `impl<T: Display> DisplayOnce for T`: the single-string form of styled
output writes the string itself, unmodified, to the sink. -/
def displayOnceStr (s : List Nat) : List Nat := s

/-- `hasTok t s` holds when the byte sequence `s` starts with the token
`t` (helper for `stripStyles`). -/
def hasTok (t s : List Nat) : Bool :=
  decide (s.take t.length = t)

/-- Remove every occurrence of the two ANSI style tokens (`styleStart`,
`styleEnd`) from a byte sequence, scanning left to right. -/
def stripStyles (s : List Nat) : List Nat :=
  match s with
  | [] => []
  | b :: bs =>
    if hasTok styleStart (b :: bs) then
      stripStyles ((b :: bs).drop styleStart.length)
    else if hasTok styleEnd (b :: bs) then
      stripStyles ((b :: bs).drop styleEnd.length)
    else b :: stripStyles bs
termination_by s.length
decreasing_by
  · simp [styleStart]
    omega
  · simp [styleEnd]
    omega
  · simp

theorem not_open_of_close {b : Nat} (h : is_close_bracket b = true) :
    is_open_bracket b = false := by
  simp only [is_close_bracket, Bool.or_eq_true, beq_iff_eq] at h
  rcases h with (h | h) | h <;> subst h <;> decide

theorem not_close_of_open {b : Nat} (h : is_open_bracket b = true) :
    is_close_bracket b = false := by
  simp only [is_open_bracket, Bool.or_eq_true, beq_iff_eq] at h
  rcases h with (h | h) | h <;> subst h <;> decide

theorem matching_ne_of_open {b : Nat} (h : is_open_bracket b = true) :
    matching_bracket b ≠ b := by
  simp only [is_open_bracket, Bool.or_eq_true, beq_iff_eq] at h
  rcases h with (h | h) | h <;> subst h <;> decide

theorem matching_ne_of_close {b : Nat} (h : is_close_bracket b = true) :
    matching_bracket b ≠ b := by
  simp only [is_close_bracket, Bool.or_eq_true, beq_iff_eq] at h
  rcases h with (h | h) | h <;> subst h <;> decide

theorem closesAt_succ_matching {b m : Nat} (xs : List Nat) (u : Int) (j : Nat)
    (hmb : m ≠ b) : closesAt b m (m :: xs) u (j + 1) = closesAt b m xs (u - 1) j := by
  simp only [closesAt, List.getD_cons_succ, List.take_succ_cons, List.count_cons]
  rw [decide_eq_decide]
  simp only [beq_self_eq_true, if_true]
  have hmb' : (m == b) = false := by simp [hmb]
  simp only [hmb', if_false]
  constructor <;> rintro ⟨h1, h2⟩ <;> refine ⟨h1, ?_⟩ <;> push_cast at h2 ⊢ <;> omega

theorem closesAt_succ_bracket {b m : Nat} (xs : List Nat) (u : Int) (j : Nat)
    (hmb : m ≠ b) : closesAt b m (b :: xs) u (j + 1) = closesAt b m xs (u + 1) j := by
  simp only [closesAt, List.getD_cons_succ, List.take_succ_cons, List.count_cons]
  rw [decide_eq_decide]
  simp only [beq_self_eq_true, if_true]
  have hbm : (b == m) = false := by simp [Ne.symm hmb]
  simp only [hbm, if_false]
  constructor <;> rintro ⟨h1, h2⟩ <;> refine ⟨h1, ?_⟩ <;> push_cast at h2 ⊢ <;> omega

theorem closesAt_succ_other {b m x : Nat} (xs : List Nat) (u : Int) (j : Nat)
    (hxm : x ≠ m) (hxb : x ≠ b) :
    closesAt b m (x :: xs) u (j + 1) = closesAt b m xs u j := by
  simp only [closesAt, List.getD_cons_succ, List.take_succ_cons, List.count_cons]
  rw [decide_eq_decide]
  have h1 : (x == m) = false := by simp [hxm]
  have h2 : (x == b) = false := by simp [hxb]
  simp only [h1, h2, if_false]
  constructor <;> rintro ⟨h1, h2⟩ <;> exact ⟨h1, by push_cast at h2 ⊢; omega⟩

theorem closesAt_zero_matching {b m : Nat} (xs : List Nat) (u : Int)
    (hu : u = 1) : closesAt b m (m :: xs) u 0 = true := by
  subst hu
  simp [closesAt]

theorem closesAt_zero_matching_ne {b m : Nat} (xs : List Nat) (u : Int)
    (hu : u ≠ 1) : closesAt b m (m :: xs) u 0 = false := by
  simp only [closesAt, decide_eq_false_iff_not]
  rintro ⟨-, h2⟩
  simp [List.count_cons] at h2
  omega

theorem closesAt_zero_other {b m x : Nat} (xs : List Nat) (u : Int)
    (hxm : x ≠ m) : closesAt b m (x :: xs) u 0 = false := by
  simp only [closesAt, decide_eq_false_iff_not]
  rintro ⟨h1, -⟩
  simp at h1
  exact hxm h1

theorem fmbFwd_eq_scanIdx (b m : Nat) (hmb : m ≠ b) :
    ∀ (s : List Nat) (idx : Nat) (u : Int), 1 ≤ u →
      fmbFwd b m s idx u = (scanIdx b m s u).map (fun j => (m, idx + j)) := by
  intro s
  induction s with
  | nil => intro idx u _; simp [fmbFwd, scanIdx]
  | cons x xs ih =>
    intro idx u hu
    have hlen : (x :: xs).length = xs.length + 1 := rfl
    rw [scanIdx, hlen, List.range_succ_eq_map]
    by_cases hxm : x = m
    · subst hxm
      by_cases hu1 : u = 1
      · rw [List.find?_cons_of_pos _ (closesAt_zero_matching xs u hu1)]
        subst hu1
        simp [fmbFwd]
      · rw [List.find?_cons_of_neg _ (by simp [closesAt_zero_matching_ne xs u hu1])]
        rw [List.find?_map]
        have hshift : (closesAt b x (x :: xs) u) ∘ Nat.succ = closesAt b x xs (u - 1) := by
          funext j
          exact closesAt_succ_matching xs u j hmb
        rw [hshift, Option.map_map]
        have hl : fmbFwd b x (x :: xs) idx u = fmbFwd b x xs (idx + 1) (u - 1) := by
          have : ¬ (u - 1 = 0) := by omega
          simp [fmbFwd, this]
        rw [hl, ih (idx + 1) (u - 1) (by omega)]
        rw [scanIdx]
        congr 1
        funext j
        simp only [Function.comp_apply, Nat.succ_eq_add_one]
        congr 1
        omega
    · by_cases hxb : x = b
      · subst hxb
        rw [List.find?_cons_of_neg _ (by simp [closesAt_zero_other xs u hxm])]
        rw [List.find?_map]
        have hshift : (closesAt x m (x :: xs) u) ∘ Nat.succ = closesAt x m xs (u + 1) := by
          funext j
          exact closesAt_succ_bracket xs u j hmb
        rw [hshift, Option.map_map]
        have hl : fmbFwd x m (x :: xs) idx u = fmbFwd x m xs (idx + 1) (u + 1) := by
          have hxm' : ¬ (x = m) := hxm
          simp [fmbFwd, hxm']
        rw [hl, ih (idx + 1) (u + 1) (by omega)]
        rw [scanIdx]
        congr 1
        funext j
        simp only [Function.comp_apply, Nat.succ_eq_add_one]
        congr 1
        omega
      · rw [List.find?_cons_of_neg _ (by simp [closesAt_zero_other xs u hxm])]
        rw [List.find?_map]
        have hshift : (closesAt b m (x :: xs) u) ∘ Nat.succ = closesAt b m xs u := by
          funext j
          exact closesAt_succ_other xs u j hxm hxb
        rw [hshift, Option.map_map]
        have hl : fmbFwd b m (x :: xs) idx u = fmbFwd b m xs (idx + 1) u := by
          simp [fmbFwd, hxm, hxb]
        rw [hl, ih (idx + 1) u hu]
        rw [scanIdx]
        congr 1
        funext j
        simp only [Function.comp_apply, Nat.succ_eq_add_one]
        congr 1
        omega

theorem fmbBwd_eq_scanIdx (b m : Nat) (hmb : m ≠ b) :
    ∀ (s : List Nat) (idx : Nat) (u : Int), 1 ≤ u →
      fmbBwd b m s idx u = (scanIdx b m s u).map (fun j => (m, idx - 1 - j)) := by
  intro s
  induction s with
  | nil => intro idx u _; simp [fmbBwd, scanIdx]
  | cons x xs ih =>
    intro idx u hu
    have hlen : (x :: xs).length = xs.length + 1 := rfl
    rw [scanIdx, hlen, List.range_succ_eq_map]
    by_cases hxm : x = m
    · subst hxm
      by_cases hu1 : u = 1
      · rw [List.find?_cons_of_pos _ (closesAt_zero_matching xs u hu1)]
        subst hu1
        simp [fmbBwd]
      · rw [List.find?_cons_of_neg _ (by simp [closesAt_zero_matching_ne xs u hu1])]
        rw [List.find?_map]
        have hshift : (closesAt b x (x :: xs) u) ∘ Nat.succ = closesAt b x xs (u - 1) := by
          funext j
          exact closesAt_succ_matching xs u j hmb
        rw [hshift, Option.map_map]
        have hl : fmbBwd b x (x :: xs) idx u = fmbBwd b x xs (idx - 1) (u - 1) := by
          have : ¬ (u - 1 = 0) := by omega
          simp [fmbBwd, this]
        rw [hl, ih (idx - 1) (u - 1) (by omega)]
        rw [scanIdx]
        congr 1
        funext j
        simp only [Function.comp_apply, Nat.succ_eq_add_one]
        congr 1
        omega
    · by_cases hxb : x = b
      · subst hxb
        rw [List.find?_cons_of_neg _ (by simp [closesAt_zero_other xs u hxm])]
        rw [List.find?_map]
        have hshift : (closesAt x m (x :: xs) u) ∘ Nat.succ = closesAt x m xs (u + 1) := by
          funext j
          exact closesAt_succ_bracket xs u j hmb
        rw [hshift, Option.map_map]
        have hl : fmbBwd x m (x :: xs) idx u = fmbBwd x m xs (idx - 1) (u + 1) := by
          have hxm' : ¬ (x = m) := hxm
          simp [fmbBwd, hxm']
        rw [hl, ih (idx - 1) (u + 1) (by omega)]
        rw [scanIdx]
        congr 1
        funext j
        simp only [Function.comp_apply, Nat.succ_eq_add_one]
        congr 1
        omega
      · rw [List.find?_cons_of_neg _ (by simp [closesAt_zero_other xs u hxm])]
        rw [List.find?_map]
        have hshift : (closesAt b m (x :: xs) u) ∘ Nat.succ = closesAt b m xs u := by
          funext j
          exact closesAt_succ_other xs u j hxm hxb
        rw [hshift, Option.map_map]
        have hl : fmbBwd b m (x :: xs) idx u = fmbBwd b m xs (idx - 1) u := by
          simp [fmbBwd, hxm, hxb]
        rw [hl, ih (idx - 1) u hu]
        rw [scanIdx]
        congr 1
        funext j
        simp only [Function.comp_apply, Nat.succ_eq_add_one]
        congr 1
        omega

theorem find_matching_bracket_open (line : List Nat) (pos b : Nat)
    (hb : is_open_bracket b = true) :
    find_matching_bracket line pos b =
      (scanIdx b (matching_bracket b) (line.drop (pos + 1)) 1).map
        (fun j => (matching_bracket b, pos + 1 + j)) := by
  unfold find_matching_bracket
  rw [if_pos hb]
  exact fmbFwd_eq_scanIdx b (matching_bracket b) (matching_ne_of_open hb)
    (line.drop (pos + 1)) (pos + 1) 1 (by omega)

theorem find_matching_bracket_close (line : List Nat) (pos b : Nat)
    (hb : is_close_bracket b = true) :
    find_matching_bracket line pos b =
      (scanIdx b (matching_bracket b) ((line.take pos).reverse) 1).map
        (fun j => (matching_bracket b, pos - 1 - j)) := by
  unfold find_matching_bracket
  rw [if_neg (by simp [not_open_of_close hb])]
  exact fmbBwd_eq_scanIdx b (matching_bracket b) (matching_ne_of_close hb)
    ((line.take pos).reverse) pos 1 (by omega)

theorem scanIdx_some {b m : Nat} {s : List Nat} {u : Int} {j : Nat}
    (h : scanIdx b m s u = some j) :
    j < s.length ∧ s.getD j 0 = m := by
  have hm := List.mem_of_find?_eq_some h
  have hp := List.find?_some h
  simp only [List.mem_range] at hm
  simp only [closesAt, decide_eq_true_eq] at hp
  exact ⟨hm, hp.1⟩

theorem getD_drop (l : List Nat) (i j : Nat) :
    (l.drop i).getD j 0 = l.getD (i + j) 0 := by
  simp [List.getD_eq_getElem?_getD, List.getElem?_drop]

theorem getD_take (l : List Nat) (i j : Nat) (h : j < i) :
    (l.take i).getD j 0 = l.getD j 0 := by
  simp [List.getD_eq_getElem?_getD, List.getElem?_take, h]

theorem getD_reverse (l : List Nat) (i : Nat) (h : i < l.length) :
    l.reverse.getD i 0 = l.getD (l.length - 1 - i) 0 := by
  simp only [List.getD_eq_getElem?_getD]
  rw [List.getElem?_reverse h]

/-- Inversion for a successful forward search: the counterpart byte is
reported, the index lies strictly between the anchor and the end of the
line, and the line holds that byte there. -/
theorem find_open_some_inv {line : List Nat} {pos b m idx : Nat}
    (hb : is_open_bracket b = true)
    (h : find_matching_bracket line pos b = some (m, idx)) :
    m = matching_bracket b ∧ pos < idx ∧ idx < line.length ∧
      line.getD idx 0 = m := by
  rw [find_matching_bracket_open line pos b hb] at h
  rcases hj : scanIdx b (matching_bracket b) (line.drop (pos + 1)) 1 with _ | j
  · rw [hj] at h
    exact Option.noConfusion h
  · rw [hj] at h
    have h' : (matching_bracket b, pos + 1 + j) = (m, idx) := by simpa using h
    injection h' with hm hidx
    obtain ⟨hlt, hget⟩ := scanIdx_some hj
    rw [List.length_drop] at hlt
    refine ⟨hm.symm, by omega, by omega, ?_⟩
    rw [← hidx, ← hm, ← getD_drop]
    exact hget

/-- Inversion for a successful backward search from an anchor within the
line: the counterpart byte is reported, the index lies strictly below the
anchor, and the line holds that byte there. -/
theorem find_close_some_inv {line : List Nat} {pos b m idx : Nat}
    (hb : is_close_bracket b = true) (hpos : pos ≤ line.length)
    (h : find_matching_bracket line pos b = some (m, idx)) :
    m = matching_bracket b ∧ idx < pos ∧ idx < line.length ∧
      line.getD idx 0 = m := by
  rw [find_matching_bracket_close line pos b hb] at h
  rcases hj : scanIdx b (matching_bracket b) ((line.take pos).reverse) 1 with _ | j
  · rw [hj] at h
    exact Option.noConfusion h
  · rw [hj] at h
    have h' : (matching_bracket b, pos - 1 - j) = (m, idx) := by simpa using h
    injection h' with hm hidx
    obtain ⟨hlt, hget⟩ := scanIdx_some hj
    rw [List.length_reverse, List.length_take] at hlt
    have hjp : j < pos := by omega
    have hjl : (line.take pos).length = pos := by
      rw [List.length_take]
      omega
    rw [getD_reverse _ j (by rw [hjl]; omega), hjl] at hget
    rw [getD_take _ _ _ (by omega)] at hget
    have hix : pos - 1 - j < pos := by omega
    refine ⟨hm.symm, by omega, by omega, ?_⟩
    rw [← hidx, ← hm]
    exact hget

theorem cbLast_some_inv {line : List Nat} {pos b p : Nat}
    (h : cbLast line pos = some (b, p)) :
    p = pos ∧ line.getD pos 0 = b ∧
      ((is_close_bracket b = true ∧ pos ≠ 0) ∨
        (is_open_bracket b = true ∧ pos + 1 ≠ line.length)) := by
  unfold cbLast at h
  by_cases hc : is_close_bracket (line.getD pos 0) = true
  · rw [if_pos hc] at h
    by_cases h0 : pos = 0
    · rw [if_pos h0] at h; exact Option.noConfusion h
    · rw [if_neg h0] at h
      have h' := Option.some.inj h
      injection h' with hb hp
      exact ⟨hp.symm, hb, Or.inl ⟨hb ▸ hc, h0⟩⟩
  · rw [if_neg hc] at h
    by_cases ho : is_open_bracket (line.getD pos 0) = true
    · rw [if_pos ho] at h
      by_cases hl : pos + 1 = line.length
      · rw [if_pos hl] at h; exact Option.noConfusion h
      · rw [if_neg hl] at h
        have h' := Option.some.inj h
        injection h' with hb hp
        exact ⟨hp.symm, hb, Or.inr ⟨hb ▸ ho, hl⟩⟩
    · rw [if_neg ho] at h; exact Option.noConfusion h

theorem cbLoop_some_inv {line : List Nat} {pos b p : Nat}
    (h : cbLoop line pos = some (b, p)) :
    (p = pos ∨ (p = pos - 1 ∧ 0 < pos)) ∧ line.getD p 0 = b ∧
      ((is_close_bracket b = true ∧ p ≠ 0) ∨
        (is_open_bracket b = true ∧ p + 1 ≠ line.length)) := by
  unfold cbLoop at h
  by_cases hc : is_close_bracket (line.getD pos 0) = true
  · rw [if_pos hc] at h
    by_cases h0 : pos = 0
    · rw [if_pos h0] at h; exact Option.noConfusion h
    · rw [if_neg h0] at h
      have h' := Option.some.inj h
      injection h' with hb hp
      subst hp
      exact ⟨Or.inl rfl, hb, Or.inl ⟨hb ▸ hc, h0⟩⟩
  · rw [if_neg hc] at h
    by_cases ho : is_open_bracket (line.getD pos 0) = true
    · rw [if_pos ho] at h
      by_cases hl : pos + 1 = line.length
      · rw [if_pos hl] at h; exact Option.noConfusion h
      · rw [if_neg hl] at h
        have h' := Option.some.inj h
        injection h' with hb hp
        subst hp
        exact ⟨Or.inl rfl, hb, Or.inr ⟨hb ▸ ho, hl⟩⟩
    · rw [if_neg ho] at h
      by_cases h0 : 0 < pos
      · rw [if_pos h0] at h
        obtain ⟨hp, hb, hcase⟩ := cbLast_some_inv h
        subst hp
        exact ⟨Or.inr ⟨rfl, h0⟩, hb, hcase⟩
      · rw [if_neg h0] at h; exact Option.noConfusion h

/-- Invariant of the bracket cache (shared by several claims): a successful
`check_bracket` reports a bracket byte actually present in the line, at an
in-bounds position, and an opening bracket is never reported at the last
byte. -/
theorem check_bracket_some_inv {line : List Nat} {pos b p : Nat}
    (h : check_bracket line pos = some (b, p)) :
    (is_open_bracket b = true ∨ is_close_bracket b = true) ∧
      p < line.length ∧ line.getD p 0 = b ∧
      (is_open_bracket b = true → p + 1 < line.length) := by
  unfold check_bracket at h
  by_cases hemp : line = []
  · rw [if_pos hemp] at h; exact Option.noConfusion h
  · rw [if_neg hemp] at h
    have hlen : 0 < line.length := List.length_pos.mpr hemp
    by_cases hpe : line.length ≤ pos
    · rw [if_pos hpe] at h
      by_cases hc : is_close_bracket (line.getD (line.length - 1) 0) = true
      · rw [if_pos hc] at h
        have h' := Option.some.inj h
        injection h' with hb hp
        subst hp
        refine ⟨Or.inr (hb ▸ hc), by omega, hb, ?_⟩
        intro ho
        rw [not_open_of_close (hb ▸ hc)] at ho
        exact Bool.noConfusion ho
      · rw [if_neg hc] at h; exact Option.noConfusion h
    · rw [if_neg hpe] at h
      have hpl : pos < line.length := by omega
      obtain ⟨hp, hb, hcase⟩ := cbLoop_some_inv h
      have hplen : p < line.length := by
        rcases hp with hp | ⟨hp, h0⟩ <;> omega
      refine ⟨?_, hplen, hb, ?_⟩
      · rcases hcase with ⟨hc, -⟩ | ⟨ho, -⟩
        · exact Or.inr hc
        · exact Or.inl ho
      · intro ho
        rcases hcase with ⟨hc, -⟩ | ⟨-, hne⟩
        · rw [not_open_of_close hc] at ho
          exact Bool.noConfusion ho
        · have hple : p + 1 ≤ line.length := by omega
          omega

theorem stripStyles_nil : stripStyles [] = [] := by
  simp [stripStyles]

theorem stripStyles_cons (b : Nat) (bs : List Nat) :
    stripStyles (b :: bs) =
      if hasTok styleStart (b :: bs) then
        stripStyles ((b :: bs).drop styleStart.length)
      else if hasTok styleEnd (b :: bs) then
        stripStyles ((b :: bs).drop styleEnd.length)
      else b :: stripStyles bs := by
  rw [stripStyles.eq_def]

theorem hasTok_start_of_ne {b : Nat} (bs : List Nat) (hb : b ≠ 27) :
    hasTok styleStart (b :: bs) = false := by
  simp [hasTok, styleStart, List.take_succ_cons, hb]

theorem hasTok_end_of_ne {b : Nat} (bs : List Nat) (hb : b ≠ 27) :
    hasTok styleEnd (b :: bs) = false := by
  simp [hasTok, styleEnd, List.take_succ_cons, hb]

theorem stripStyles_start (t : List Nat) :
    stripStyles (styleStart ++ t) = stripStyles t := by
  have he : styleStart ++ t = 27 :: 91 :: 49 :: 59 :: 51 :: 52 :: 109 :: t := rfl
  rw [he, stripStyles_cons]
  have h1 : hasTok styleStart (27 :: 91 :: 49 :: 59 :: 51 :: 52 :: 109 :: t) = true := by
    simp [hasTok, styleStart, List.take_succ_cons]
  rw [if_pos h1]
  simp [styleStart]

theorem stripStyles_end (t : List Nat) :
    stripStyles (styleEnd ++ t) = stripStyles t := by
  have he : styleEnd ++ t = 27 :: 91 :: 48 :: 109 :: t := rfl
  rw [he, stripStyles_cons]
  have h1 : hasTok styleStart (27 :: 91 :: 48 :: 109 :: t) = false := by
    simp [hasTok, styleStart, List.take_succ_cons]
  have h2 : hasTok styleEnd (27 :: 91 :: 48 :: 109 :: t) = true := by
    simp [hasTok, styleEnd, List.take_succ_cons]
  rw [if_neg (by simp [h1]), if_pos h2]
  simp [styleEnd]

theorem stripStyles_append_no_esc (s t : List Nat) (h : ¬ 27 ∈ s) :
    stripStyles (s ++ t) = s ++ stripStyles t := by
  induction s with
  | nil => simp
  | cons b bs ih =>
    have hb : b ≠ 27 := by
      intro e
      exact h (by simp [e])
    have hmem : ¬ 27 ∈ bs := fun hm => h (by simp [hm])
    rw [List.cons_append, stripStyles_cons]
    rw [if_neg (by simp [hasTok_start_of_ne _ hb]),
      if_neg (by simp [hasTok_end_of_ne _ hb])]
    rw [ih hmem]
    simp

theorem stripStyles_no_esc (s : List Nat) (h : ¬ 27 ∈ s) :
    stripStyles s = s := by
  have h2 := stripStyles_append_no_esc s [] h
  simpa [stripStyles_nil] using h2

theorem getElem?_eq_some_getD {l : List Nat} {i : Nat} (h : i < l.length) :
    getElem? l i = some (l.getD i 0) := by
  rw [List.getElem?_eq_getElem h]
  simp [List.getD_eq_getElem?_getD, List.getElem?_eq_getElem h]

theorem fmt_foldl (bs : List (StyleTokens × List Nat)) :
    ∀ acc : List Nat,
      bs.foldl (fun a x => a ++ renderBlock x) acc = acc ++ StyledBlocks.fmt bs := by
  induction bs with
  | nil => intro acc; simp [StyledBlocks.fmt]
  | cons x xs ih =>
    intro acc
    rw [List.foldl_cons]
    rw [ih (acc ++ renderBlock x)]
    have h2 : StyledBlocks.fmt (x :: xs) = renderBlock x ++ StyledBlocks.fmt xs := by
      rw [StyledBlocks.fmt, List.foldl_cons, ih ([] ++ renderBlock x)]
      simp
    rw [h2, List.append_assoc]

theorem fmt_cons (x : StyleTokens × List Nat) (xs : List (StyleTokens × List Nat)) :
    StyledBlocks.fmt (x :: xs) = renderBlock x ++ StyledBlocks.fmt xs := by
  rw [StyledBlocks.fmt, List.foldl_cons, fmt_foldl]
  simp

/-- Claim C1: for every line, anchor position and bracket byte,
`find_matching_bracket` scans forward from `pos + 1` (opening bracket) or
backward from `pos - 1` down to 0 (closing bracket) with an unmatched-depth
counter initialised to 1, returning `(counterpart, idx)` for the first
position at which the counter reaches 0 — characterised here as the first
scanned position holding the counterpart byte at which the counterpart
count exceeds the bracket count of the region scanned so far by exactly
one (`scanIdx`) — and returns `none` when the scan exhausts the line; in
particular `find_matching_bracket "(())" 0 '(' = some (')', 3)`,
`find_matching_bracket "(())" 3 ')' = some ('(', 0)`,
`find_matching_bracket "(..." 0 '(' = none` and
`find_matching_bracket "...)" 3 ')' = none`. -/
theorem find_matching_bracket_spec (line : List Nat) (pos b : Nat) :
    (is_open_bracket b = true →
      find_matching_bracket line pos b =
        (scanIdx b (matching_bracket b) (line.drop (pos + 1)) 1).map
          (fun j => (matching_bracket b, pos + 1 + j))) ∧
    (is_close_bracket b = true →
      find_matching_bracket line pos b =
        (scanIdx b (matching_bracket b) ((line.take pos).reverse) 1).map
          (fun j => (matching_bracket b, pos - 1 - j))) ∧
    find_matching_bracket [40, 40, 41, 41] 0 40 = some (41, 3) ∧
    find_matching_bracket [40, 40, 41, 41] 3 41 = some (40, 0) ∧
    find_matching_bracket [40, 46, 46, 46] 0 40 = none ∧
    find_matching_bracket [46, 46, 46, 41] 3 41 = none :=
  ⟨find_matching_bracket_open line pos b, find_matching_bracket_close line pos b,
    by decide, by decide, by decide, by decide⟩

theorem find_matching_bracket_spec_witness :
    is_open_bracket 40 = true ∧ is_close_bracket 41 = true ∧
    find_matching_bracket [40, 40, 41, 41] 0 40 =
      (scanIdx 40 (matching_bracket 40) ([40, 40, 41, 41].drop (0 + 1)) 1).map
        (fun j => (matching_bracket 40, 0 + 1 + j)) ∧
    find_matching_bracket [40, 40, 41, 41] 3 41 =
      (scanIdx 41 (matching_bracket 41) (([40, 40, 41, 41].take 3).reverse) 1).map
        (fun j => (matching_bracket 41, 3 - 1 - j)) :=
  ⟨by decide, by decide,
    (find_matching_bracket_spec [40, 40, 41, 41] 0 40).1 (by decide),
    (find_matching_bracket_spec [40, 40, 41, 41] 3 41).2.1 (by decide)⟩

/-- Claim C2: `check_bracket` returns none on an empty line; with the
cursor at or past the end it inspects only the last byte, reporting it
exactly when it is a closing bracket; otherwise it inspects the byte at
`pos` (closing bracket: none when `pos = 0`, else `(byte, pos)`; opening
bracket: none when `pos` is the last index, else `(byte, pos)`), and when
that byte is not a bracket and `pos > 0` it repeats the same three checks
exactly once at `pos - 1`; at most two byte positions are ever inspected
(the last two conjuncts: the result depends only on the inspected
positions). -/
theorem check_bracket_spec (line : List Nat) (pos : Nat) :
    (line = [] → check_bracket line pos = none) ∧
    (line ≠ [] → line.length ≤ pos →
      check_bracket line pos =
        (if is_close_bracket (line.getD (line.length - 1) 0) then
          some (line.getD (line.length - 1) 0, line.length - 1)
        else none)) ∧
    (pos < line.length →
      check_bracket line pos =
        (if is_close_bracket (line.getD pos 0) then
          if pos = 0 then none else some (line.getD pos 0, pos)
        else if is_open_bracket (line.getD pos 0) then
          if pos + 1 = line.length then none else some (line.getD pos 0, pos)
        else if 0 < pos then
          if is_close_bracket (line.getD (pos - 1) 0) then
            if pos - 1 = 0 then none else some (line.getD (pos - 1) 0, pos - 1)
          else if is_open_bracket (line.getD (pos - 1) 0) then
            if (pos - 1) + 1 = line.length then none
            else some (line.getD (pos - 1) 0, pos - 1)
          else none
        else none)) ∧
    (line.length ≤ pos → ∀ l2 : List Nat, l2.length = line.length →
      l2.getD (line.length - 1) 0 = line.getD (line.length - 1) 0 →
      check_bracket l2 pos = check_bracket line pos) ∧
    (pos < line.length → ∀ l2 : List Nat, l2.length = line.length →
      l2.getD pos 0 = line.getD pos 0 →
      l2.getD (pos - 1) 0 = line.getD (pos - 1) 0 →
      check_bracket l2 pos = check_bracket line pos) := by
  refine ⟨?_, ?_, ?_, ?_, ?_⟩
  · intro h
    subst h
    rfl
  · intro hne hle
    unfold check_bracket
    rw [if_neg hne, if_pos hle]
  · intro hlt
    unfold check_bracket
    have hne : line ≠ [] := by
      intro h
      subst h
      simp at hlt
    rw [if_neg hne, if_neg (by omega)]
    rfl
  · intro hle l2 hlen hlast
    by_cases hemp : line = []
    · subst hemp
      have : l2 = [] := List.eq_nil_of_length_eq_zero hlen
      subst this
      rfl
    · have hemp2 : l2 ≠ [] := by
        intro h
        subst h
        exact hemp (List.eq_nil_of_length_eq_zero hlen.symm)
      unfold check_bracket
      rw [if_neg hemp, if_neg hemp2, if_pos hle, if_pos (by omega)]
      simp only [hlen, hlast]
  · intro hlt l2 hlen h0 h1
    have hemp : line ≠ [] := by
      intro h
      subst h
      simp at hlt
    have hemp2 : l2 ≠ [] := by
      intro h
      subst h
      simp at hlen
      exact hemp (List.eq_nil_of_length_eq_zero hlen.symm)
    unfold check_bracket
    rw [if_neg hemp, if_neg hemp2, if_neg (by omega), if_neg (by omega)]
    unfold cbLoop cbLast
    simp only [hlen, h0, h1]

theorem check_bracket_spec_witness :
    ([46, 46, 46, 41] : List Nat) ≠ [] ∧ ([46, 46, 46, 41] : List Nat).length ≤ 7 ∧
    check_bracket [46, 46, 46, 41] 7 =
      (if is_close_bracket (([46, 46, 46, 41] : List Nat).getD
          (([46, 46, 46, 41] : List Nat).length - 1) 0) then
        some (([46, 46, 46, 41] : List Nat).getD
          (([46, 46, 46, 41] : List Nat).length - 1) 0,
          ([46, 46, 46, 41] : List Nat).length - 1)
      else none) ∧
    (1 : Nat) < ([40, 46, 46] : List Nat).length ∧
    check_bracket [40, 46, 46] 1 =
      (if is_close_bracket (([40, 46, 46] : List Nat).getD 1 0) then
        if (1 : Nat) = 0 then none else some (([40, 46, 46] : List Nat).getD 1 0, 1)
      else if is_open_bracket (([40, 46, 46] : List Nat).getD 1 0) then
        if 1 + 1 = ([40, 46, 46] : List Nat).length then none
        else some (([40, 46, 46] : List Nat).getD 1 0, 1)
      else if (0 : Nat) < 1 then
        if is_close_bracket (([40, 46, 46] : List Nat).getD (1 - 1) 0) then
          if (1 : Nat) - 1 = 0 then none
          else some (([40, 46, 46] : List Nat).getD (1 - 1) 0, 1 - 1)
        else if is_open_bracket (([40, 46, 46] : List Nat).getD (1 - 1) 0) then
          if (1 - 1) + 1 = ([40, 46, 46] : List Nat).length then none
          else some (([40, 46, 46] : List Nat).getD (1 - 1) 0, 1 - 1)
        else none
      else none) :=
  ⟨by decide, by decide, (check_bracket_spec [46, 46, 46, 41] 7).2.1 (by decide) (by decide),
    by decide, (check_bracket_spec [40, 46, 46] 1).2.2.1 (by decide)⟩

/-- Claim C3: `MatchingBracketHighlighter::highlight_char` with
`forced = true` sets the bracket cache to empty and returns `false`
regardless of the prior cache; with `forced = false` it sets the cache to
`check_bracket line pos` and returns `true` exactly when a bracket was
found, i.e. exactly when the cache is non-empty after the call. -/
theorem highlight_char_spec (cache cache' : Option (Nat × Nat))
    (line : List Nat) (pos : Nat) :
    MatchingBracketHighlighter.highlight_char cache line pos true = (none, false) ∧
    (∀ forced, MatchingBracketHighlighter.highlight_char cache line pos forced =
      MatchingBracketHighlighter.highlight_char cache' line pos forced) ∧
    MatchingBracketHighlighter.highlight_char cache line pos false =
      (check_bracket line pos, (check_bracket line pos).isSome) ∧
    (∀ forced, (MatchingBracketHighlighter.highlight_char cache line pos forced).2 =
      (MatchingBracketHighlighter.highlight_char cache line pos forced).1.isSome) := by
  refine ⟨rfl, fun forced => rfl, rfl, fun forced => ?_⟩
  cases forced
  · rfl
  · rfl

/-- Claim C4: `MatchingBracketHighlighter::highlight` ignores the cursor
argument, returns the line unchanged whenever its byte length is ≤ 1 (for
any cursor and cache), returns it unchanged when the cache is empty or the
search finds no counterpart, and when the cache holds `(b, p)` and
`find_matching_bracket` finds the counterpart `m` at `idx` it returns the
line with exactly the single byte at `idx` (which, for a cache seeded from
`check_bracket` on this line, is in bounds and holds `m`) wrapped in the
bold-blue start sequence and the reset sequence. -/
theorem highlight_spec (cache : Option (Nat × Nat)) (line : List Nat)
    (pos pos' : Nat) :
    MatchingBracketHighlighter.highlight cache line pos =
      MatchingBracketHighlighter.highlight cache line pos' ∧
    (line.length ≤ 1 → MatchingBracketHighlighter.highlight cache line pos = line) ∧
    (1 < line.length → cache = none →
      MatchingBracketHighlighter.highlight cache line pos = line) ∧
    (∀ b p, 1 < line.length → cache = some (b, p) →
      find_matching_bracket line p b = none →
      MatchingBracketHighlighter.highlight cache line pos = line) ∧
    (∀ b p m idx, 1 < line.length → cache = some (b, p) →
      find_matching_bracket line p b = some (m, idx) →
      MatchingBracketHighlighter.highlight cache line pos =
        line.take idx ++ styleStart ++ [m] ++ styleEnd ++ line.drop (idx + 1)) ∧
    (∀ q b p m idx, 1 < line.length → check_bracket line q = some (b, p) →
      cache = some (b, p) → find_matching_bracket line p b = some (m, idx) →
      idx < line.length ∧ line.getD idx 0 = m ∧
        MatchingBracketHighlighter.highlight cache line pos =
          line.take idx ++ styleStart ++ [m] ++ styleEnd ++ line.drop (idx + 1)) := by
  refine ⟨rfl, ?_, ?_, ?_, ?_, ?_⟩
  · intro h
    simp [MatchingBracketHighlighter.highlight, h]
  · intro h hc
    subst hc
    simp [MatchingBracketHighlighter.highlight, Nat.not_le.mpr h]
  · intro b p h hc hf
    subst hc
    simp [MatchingBracketHighlighter.highlight, Nat.not_le.mpr h, hf]
  · intro b p m idx h hc hf
    subst hc
    simp [MatchingBracketHighlighter.highlight, Nat.not_le.mpr h, hf]
  · intro q b p m idx h hcb hc hf
    obtain ⟨hbr, hplen, hpb, hopen⟩ := check_bracket_some_inv hcb
    have hmain : idx < line.length ∧ line.getD idx 0 = m := by
      rcases hbr with ho | hcl
      · obtain ⟨-, -, hi, hg⟩ := find_open_some_inv ho hf
        exact ⟨hi, hg⟩
      · obtain ⟨-, -, hi, hg⟩ := find_close_some_inv hcl (by omega) hf
        exact ⟨hi, hg⟩
    subst hc
    exact ⟨hmain.1, hmain.2,
      by simp [MatchingBracketHighlighter.highlight, Nat.not_le.mpr h, hf]⟩

theorem highlight_spec_witness :
    (1 : Nat) < ([40, 46, 41] : List Nat).length ∧
    check_bracket [40, 46, 41] 0 = some (40, 0) ∧
    find_matching_bracket [40, 46, 41] 0 40 = some (41, 2) ∧
    (2 < ([40, 46, 41] : List Nat).length ∧ ([40, 46, 41] : List Nat).getD 2 0 = 41 ∧
      MatchingBracketHighlighter.highlight (some (40, 0)) [40, 46, 41] 1 =
        ([40, 46, 41] : List Nat).take 2 ++ styleStart ++ [41] ++ styleEnd ++
          ([40, 46, 41] : List Nat).drop 3) :=
  ⟨by decide, by decide, by decide,
    (highlight_spec (some (40, 0)) [40, 46, 41] 1 1).2.2.2.2.2 0 40 0 41 2
      (by decide) (by decide) rfl (by decide)⟩

theorem cbLastChk_eq {line : List Nat} {pos : Nat} (h : pos < line.length) :
    cbLastChk line pos = some (cbLast line pos) := by
  unfold cbLastChk
  rw [if_pos h]

theorem cbLoopChk_eq {line : List Nat} {pos : Nat} (h : pos < line.length) :
    cbLoopChk line pos = some (cbLoop line pos) := by
  unfold cbLoopChk
  rw [if_pos h]
  by_cases hc : is_close_bracket (line.getD pos 0) = true
  · simp only [hc, eq_self_iff_true, if_true]
  · by_cases ho : is_open_bracket (line.getD pos 0) = true
    · simp only [hc, ho, if_false, eq_self_iff_true, if_true]
      simp
    · by_cases h0 : 0 < pos
      · have he := cbLastChk_eq (show pos - 1 < line.length by omega)
        simp only [hc, ho, h0, if_false, if_true]
        rw [he]
        unfold cbLoop
        simp only [hc, ho, h0, if_false, if_true]
        simp
      · simp only [hc, ho, h0, if_false, if_true]
        simp

/-- Claim C5: every operation of the matching-bracket highlighter is total
and touches only in-bounds bytes — `check_bracket` (and hence
`highlight_char`) always produces a defined result with every byte access
in bounds, for any line (including empty) and any cursor offset (including
offsets past the end, which are clamped to the last byte); and for a cache
seeded by `check_bracket` on the same line (the ordering precondition of
the render call), `find_matching_bracket` slices the line within bounds
and produces a defined result. -/
theorem totality_spec (line : List Nat) (pos : Nat) :
    check_bracketChk line pos = some (check_bracket line pos) ∧
    (∀ cpos b p, check_bracket line cpos = some (b, p) →
      find_matching_bracketChk line p b =
        some (find_matching_bracket line p b)) := by
  constructor
  · by_cases hemp : line = []
    · subst hemp
      rfl
    · have hlen : 0 < line.length := List.length_pos.mpr hemp
      by_cases hle : line.length ≤ pos
      · unfold check_bracketChk
        rw [if_neg hemp, if_pos hle, if_pos (by omega)]
      · unfold check_bracketChk check_bracket
        rw [if_neg hemp, if_neg hemp, if_neg hle, if_neg hle]
        exact cbLoopChk_eq (by omega)
  · intro cpos b p h
    obtain ⟨hbr, hplen, -, hopen⟩ := check_bracket_some_inv h
    unfold find_matching_bracketChk find_matching_bracket
    by_cases ho : is_open_bracket b = true
    · rw [if_pos ho, if_pos ho, if_pos (show p + 1 ≤ line.length by
        have := hopen ho; omega)]
    · rw [if_neg ho, if_neg ho, if_pos (show p ≤ line.length by omega)]

theorem totality_spec_witness :
    check_bracketChk [40, 41] 0 = some (check_bracket [40, 41] 0) ∧
    check_bracket [40, 41] 0 = some (40, 0) ∧
    find_matching_bracketChk [40, 41] 0 40 =
      some (find_matching_bracket [40, 41] 0 40) :=
  ⟨(totality_spec [40, 41] 0).1, by decide,
    (totality_spec [40, 41] 0).2 0 40 0 (by decide)⟩

/-- Claim C10: whenever `check_bracket` returns `some (b, p)`, the byte `b`
is one of the six ASCII bracket bytes, `p` is in bounds, the line holds `b`
at `p`, and for an opening bracket `p + 1` is still in bounds; hence a
bracket cache seeded by `highlight_char` from this line (which stores
exactly `check_bracket line pos`) always starts the
`find_matching_bracket` scan within the line's bounds. -/
theorem bracket_cache_wf (line : List Nat) (pos b p : Nat)
    (h : check_bracket line pos = some (b, p)) :
    (b = 40 ∨ b = 41 ∨ b = 91 ∨ b = 93 ∨ b = 123 ∨ b = 125) ∧
    p < line.length ∧ line.getD p 0 = b ∧
    (is_open_bracket b = true → p + 1 < line.length) ∧
    (∀ cache, (MatchingBracketHighlighter.highlight_char cache line pos false).1 =
      some (b, p)) ∧
    find_matching_bracketChk line p b ≠ none := by
  obtain ⟨hbr, hplen, hpb, hopen⟩ := check_bracket_some_inv h
  refine ⟨?_, hplen, hpb, hopen, ?_, ?_⟩
  · rcases hbr with ho | hc
    · simp only [is_open_bracket, Bool.or_eq_true, beq_iff_eq] at ho
      omega
    · simp only [is_close_bracket, Bool.or_eq_true, beq_iff_eq] at hc
      omega
  · intro cache
    simpa [MatchingBracketHighlighter.highlight_char] using h
  · unfold find_matching_bracketChk
    by_cases ho : is_open_bracket b = true
    · rw [if_pos ho, if_pos (show p + 1 ≤ line.length by have := hopen ho; omega)]
      exact Option.noConfusion
    · rw [if_neg ho, if_pos (show p ≤ line.length by omega)]
      exact Option.noConfusion

theorem bracket_cache_wf_witness :
    check_bracket [40, 46, 41] 1 = some (40, 0) ∧
    (0 : Nat) < ([40, 46, 41] : List Nat).length ∧
    ([40, 46, 41] : List Nat).getD 0 0 = 40 ∧
    find_matching_bracketChk [40, 46, 41] 0 40 ≠ none :=
  ⟨by decide,
    (bracket_cache_wf [40, 46, 41] 1 40 0 (by decide)).2.1,
    (bracket_cache_wf [40, 46, 41] 1 40 0 (by decide)).2.2.1,
    (bracket_cache_wf [40, 46, 41] 1 40 0 (by decide)).2.2.2.2.2⟩

theorem getD_eq_getElem {l : List Nat} {i : Nat} (h : i < l.length) :
    l.getD i 0 = l[i] := by
  rw [List.getD_eq_getElem?_getD, List.getElem?_eq_getElem h]
  rfl

theorem take_getD_drop {l : List Nat} {i : Nat} (h : i < l.length) :
    l.take i ++ [l.getD i 0] ++ l.drop (i + 1) = l := by
  rw [getD_eq_getElem h]
  calc l.take i ++ [l[i]] ++ l.drop (i + 1)
      = l.take i ++ (l[i] :: l.drop (i + 1)) := by simp
    _ = l.take i ++ l.drop i := by rw [List.getElem_cons_drop l i h]
    _ = l := List.take_append_drop i l

/-- Claim C6 (counterexample): the round-trip fails as universally stated,
because a line may itself contain the reset sequence `"\x1b[0m"`; on the
line consisting of exactly those four bytes the highlighter returns the
line unchanged (the cached `[` has no counterpart), yet stripping the
style tokens from the rendered text erases the whole line. -/
theorem strip_roundtrip_cex :
    ¬ stripStyles (MatchingBracketHighlighter.highlight
        (check_bracket styleEnd 1) styleEnd 1) = styleEnd := by
  have h1 : MatchingBracketHighlighter.highlight
      (check_bracket styleEnd 1) styleEnd 1 = styleEnd := by decide
  rw [h1]
  have h2 : stripStyles styleEnd = [] := by
    have h3 := stripStyles_end []
    rw [List.append_nil] at h3
    rw [h3, stripStyles_nil]
  rw [h2]
  decide

/-- Claim C6 (amended): for every line containing no ESC byte (27) — so
that no byte of the line can begin a style token — and every cache seeded
by `check_bracket` on that line (as `highlight_char` seeds it), removing
all `styleStart`/`styleEnd` tokens from the text rendered by
`MatchingBracketHighlighter::highlight` yields exactly the original line;
likewise for the default `highlight`, which renders the line itself. -/
theorem strip_roundtrip_amended (line : List Nat) (q pos : Nat)
    (h : ¬ 27 ∈ line) :
    stripStyles (MatchingBracketHighlighter.highlight
      (check_bracket line q) line pos) = line ∧
    stripStyles (((Highlighter.defaults Unit).highlight () line pos).2) = line := by
  refine ⟨?_, stripStyles_no_esc line h⟩
  rcases hcb : check_bracket line q with _ | bp
  · have h1 : MatchingBracketHighlighter.highlight none line pos = line := by
      by_cases hl : line.length ≤ 1
      · simp [MatchingBracketHighlighter.highlight, hl]
      · simp [MatchingBracketHighlighter.highlight, hl]
    rw [h1]
    exact stripStyles_no_esc line h
  · obtain ⟨b, p⟩ := bp
    by_cases hl : line.length ≤ 1
    · have h1 : MatchingBracketHighlighter.highlight (some (b, p)) line pos = line := by
        simp [MatchingBracketHighlighter.highlight, hl]
      rw [h1]
      exact stripStyles_no_esc line h
    · rcases hf : find_matching_bracket line p b with _ | mi
      · have h1 : MatchingBracketHighlighter.highlight (some (b, p)) line pos = line := by
          simp [MatchingBracketHighlighter.highlight, hl, hf]
        rw [h1]
        exact stripStyles_no_esc line h
      · obtain ⟨m, idx⟩ := mi
        have h1 : MatchingBracketHighlighter.highlight (some (b, p)) line pos =
            line.take idx ++ styleStart ++ [m] ++ styleEnd ++ line.drop (idx + 1) := by
          simp [MatchingBracketHighlighter.highlight, hl, hf]
        rw [h1]
        obtain ⟨hbr, hplen, hpb, hopen⟩ := check_bracket_some_inv hcb
        have hmain : idx < line.length ∧ line.getD idx 0 = m := by
          rcases hbr with ho | hcl
          · obtain ⟨-, -, hi, hg⟩ := find_open_some_inv ho hf
            exact ⟨hi, hg⟩
          · obtain ⟨-, -, hi, hg⟩ := find_close_some_inv hcl (by omega) hf
            exact ⟨hi, hg⟩
        obtain ⟨hidx, hget⟩ := hmain
        have hm27 : m ≠ 27 := by
          intro he
          apply h
          have hmem : line.getD idx 0 ∈ line := by
            rw [getD_eq_getElem hidx]
            exact List.getElem_mem hidx
          rw [hget, he] at hmem
          exact hmem
        have htake : ¬ 27 ∈ line.take idx := fun hm => h (List.take_subset idx line hm)
        have hdrop : ¬ 27 ∈ line.drop (idx + 1) :=
          fun hm => h (List.drop_subset (idx + 1) line hm)
        have hassoc : line.take idx ++ styleStart ++ [m] ++ styleEnd ++ line.drop (idx + 1)
            = line.take idx ++ (styleStart ++ ([m] ++ (styleEnd ++ line.drop (idx + 1)))) := by
          simp [List.append_assoc]
        rw [hassoc]
        rw [stripStyles_append_no_esc _ _ htake]
        rw [stripStyles_start]
        have hm1 : ¬ 27 ∈ [m] := by
          simp
          exact fun he => hm27 he.symm
        rw [stripStyles_append_no_esc [m] _ hm1]
        rw [stripStyles_end]
        rw [stripStyles_no_esc _ hdrop]
        have hfin := take_getD_drop hidx
        rw [hget] at hfin
        rw [← List.append_assoc]
        exact hfin

theorem strip_roundtrip_amended_witness :
    ¬ (27 : Nat) ∈ ([40, 41] : List Nat) ∧
    stripStyles (MatchingBracketHighlighter.highlight
      (check_bracket [40, 41] 0) [40, 41] 0) = [40, 41] ∧
    stripStyles (((Highlighter.defaults Unit).highlight () [40, 41] 0).2) = [40, 41] :=
  ⟨by decide, (strip_roundtrip_amended [40, 41] 0 0 (by decide)).1,
    (strip_roundtrip_amended [40, 41] 0 0 (by decide)).2⟩

/-- Claim C7: the delegation instance on an exclusive reference
(`impl Highlighter for &mut H`) forwards every one of the five operations
unchanged: invoked through the reference wrapper, each operation produces
exactly the same result and the same state change as invoked on the
underlying highlighter directly. -/
theorem refMut_delegation (σ : Type) (h : Highlighter σ) (s : σ)
    (line prompt hint candidate : List Nat) (pos : Nat) (dflt forced : Bool)
    (kind : CompletionType) :
    (refMut h).highlight s line pos = h.highlight s line pos ∧
    (refMut h).highlight_prompt s prompt dflt = h.highlight_prompt s prompt dflt ∧
    (refMut h).highlight_hint s hint = h.highlight_hint s hint ∧
    (refMut h).highlight_candidate s candidate kind =
      h.highlight_candidate s candidate kind ∧
    (refMut h).highlight_char s line pos forced = h.highlight_char s line pos forced :=
  ⟨rfl, rfl, rfl, rfl, rfl⟩

/-- Claim C8: the default `Highlighter` operations — used in particular by
the unit highlighter `()`, which overrides nothing — return the line, the
prompt, the hint and the candidate unchanged (with no state change), and
`highlight_char` returns `false` for every line, position and forced
flag. -/
theorem default_highlighter_spec (σ : Type) (s : σ)
    (line prompt hint candidate : List Nat) (pos : Nat) (dflt forced : Bool)
    (kind : CompletionType) :
    (Highlighter.defaults σ).highlight s line pos = (s, line) ∧
    (Highlighter.defaults σ).highlight_prompt s prompt dflt = (s, prompt) ∧
    (Highlighter.defaults σ).highlight_hint s hint = (s, hint) ∧
    (Highlighter.defaults σ).highlight_candidate s candidate kind = (s, candidate) ∧
    (Highlighter.defaults σ).highlight_char s line pos forced = (s, false) ∧
    unitHighlighter.highlight () line pos = ((), line) ∧
    unitHighlighter.highlight_prompt () prompt dflt = ((), prompt) ∧
    unitHighlighter.highlight_hint () hint = ((), hint) ∧
    unitHighlighter.highlight_candidate () candidate kind = ((), candidate) ∧
    unitHighlighter.highlight_char () line pos forced = ((), false) :=
  ⟨rfl, rfl, rfl, rfl, rfl, rfl, rfl, rfl, rfl, rfl⟩

/-- Claim C9: rendering a span-sequence styled output writes, for each
span in sequence, start token + text + end token — the rendered bytes are
exactly the concatenation of `start(s) ++ t ++ end(s)` over the spans;
the single-string form writes the string itself unmodified; and the unit
style contributes empty start and end tokens, so a unit-styled span writes
exactly its text. -/
theorem styled_blocks_render (blocks : List (StyleTokens × List Nat))
    (x : StyleTokens × List Nat) (s t : List Nat) :
    StyledBlocks.fmt [] = [] ∧
    StyledBlocks.fmt (x :: blocks) =
      x.1.startTok ++ x.2 ++ x.1.endTok ++ StyledBlocks.fmt blocks ∧
    StyledBlocks.fmt blocks =
      (blocks.map (fun bl => bl.1.startTok ++ bl.2 ++ bl.1.endTok)).flatten ∧
    displayOnceStr s = s ∧
    StyledBlocks.fmt [(unitStyle, t)] = t := by
  refine ⟨rfl, ?_, ?_, rfl, ?_⟩
  · rw [fmt_cons]
    simp [renderBlock]
  · induction blocks with
    | nil => rfl
    | cons y ys ih =>
      rw [fmt_cons, ih]
      simp [renderBlock]
  · rw [fmt_cons]
    simp [renderBlock, unitStyle, StyledBlocks.fmt]
